import Mathlib

/-!
Shallow embedding of the mass-spring cloth integrator from
`tests/test_cloth_pytorch.py` and of the mesh deformation kernel from
`exts/omni.warp/omni/warp/nodes/samples/OgnMeshDeform.py`.

Tensors of 3D vectors become functions `Fin n → Vec3` over the reals;
the vectorized spring pass becomes a fold of per-spring scatter-add
contributions (the scatter-add is an order-independent sum, which the
fold realizes); the in-place updates of `integrate_particles` become a
returned `State`.
-/

open scoped BigOperators

namespace ClothSim

/-- A 3D vector with real components, standing for one row of a
`(n, 3)` float tensor. -/
structure Vec3 where
  x : ℝ
  y : ℝ
  z : ℝ

def Vec3.add (a b : Vec3) : Vec3 := ⟨a.x + b.x, a.y + b.y, a.z + b.z⟩

def Vec3.sub (a b : Vec3) : Vec3 := ⟨a.x - b.x, a.y - b.y, a.z - b.z⟩

def Vec3.smul (c : ℝ) (v : Vec3) : Vec3 := ⟨c * v.x, c * v.y, c * v.z⟩

def Vec3.dot (a b : Vec3) : ℝ := a.x * b.x + a.y * b.y + a.z * b.z

/-- Euclidean norm, `torch.linalg.norm` on one row. -/
noncomputable def Vec3.norm (v : Vec3) : ℝ := Real.sqrt (v.dot v)

def Vec3.zero : Vec3 := ⟨0, 0, 0⟩

/-- One spring: endpoint indices `i`, `j`, the rest length, the stiffness
`ke` and the damping `kd` (one row of `spring_indices` together with the
matching entries of `spring_lengths`, `spring_stiffness`,
`spring_damping`). -/
structure Spring (n : ℕ) where
  i : Fin n
  j : Fin n
  rest : ℝ
  ke : ℝ
  kd : ℝ

/-- The mutable tensors held by `TrIntegrator`: positions, velocities and
the accumulated-force buffer. -/
structure State (n : ℕ) where
  pos : Fin n → Vec3
  vel : Fin n → Vec3
  force : Fin n → Vec3

variable {n : ℕ}

/-- `l = torch.linalg.norm(xij)` for one spring: the current length. -/
noncomputable def springL (x : Fin n → Vec3) (s : Spring n) : ℝ :=
  ((x s.i).sub (x s.j)).norm

/-- `dir = (xij.T * l_inv).T` for one spring, with `l_inv = 1.0 / l`:
the normalization divides by the current length with no guard. -/
noncomputable def springDir (x : Fin n → Vec3) (s : Spring n) : Vec3 :=
  Vec3.smul (1 / springL x s) ((x s.i).sub (x s.j))

/-- `fs = ke * c + kd * dcdt` for one spring, with `c = l - rest` and
`dcdt = dot(dir, vij)`. -/
noncomputable def springFs (x v : Fin n → Vec3) (s : Spring n) : ℝ :=
  s.ke * (springL x s - s.rest) +
    s.kd * ((springDir x s).dot ((v s.i).sub (v s.j)))

/-- The scatter-add contribution of one spring: `-fs*dir` onto particle `i`
and `+fs*dir` onto particle `j` of the force buffer `f`. -/
noncomputable def applySpring (x v : Fin n → Vec3) (f : Fin n → Vec3)
    (s : Spring n) : Fin n → Vec3 :=
  let fsdir := Vec3.smul (springFs x v s) (springDir x s)
  let f1 := Function.update f s.i ((f s.i).sub fsdir)
  Function.update f1 s.j ((f1 s.j).add fsdir)

/-- `eval_springs(x, v, indices, rest, ke, kd, f)`: accumulate every
force pair of every spring into the buffer `f` (the two `scatter_add` calls sum
all contributions; the fold realizes that sum spring by spring). -/
noncomputable def eval_springs (x v : Fin n → Vec3) (springs : List (Spring n))
    (f : Fin n → Vec3) : Fin n → Vec3 :=
  springs.foldl (applySpring x v) f

/-- `integrate_particles(x, v, f, g, w, dt)`: semi-implicit Euler.
`s = w > 0.0`; `a_ext = g*s[:,None]`; `v += ((f.T*w).T + a_ext)*dt`;
`x += v*dt`; `f *= 0.0`. Returns the updated buffers. -/
noncomputable def integrate_particles (x v f : Fin n → Vec3) (g : Vec3)
    (w : Fin n → ℝ) (dt : ℝ) : State n :=
  let a_ext : Fin n → Vec3 := fun k => Vec3.smul (if 0 < w k then 1 else 0) g
  let v1 : Fin n → Vec3 := fun k =>
    (v k).add (Vec3.smul dt ((Vec3.smul (w k) (f k)).add (a_ext k)))
  let x1 : Fin n → Vec3 := fun k => (x k).add (Vec3.smul dt (v1 k))
  { pos := x1, vel := v1, force := fun k => Vec3.smul 0 (f k) }

/-- One loop body of `TrIntegrator.simulate`: `eval_springs` on the
current state, then `integrate_particles` with the sub-step `dt`. -/
noncomputable def simStep (springs : List (Spring n)) (g : Vec3)
    (w : Fin n → ℝ) (dt : ℝ) (st : State n) : State n :=
  integrate_particles st.pos st.vel
    (eval_springs st.pos st.vel springs st.force) g w dt

/-- The `for s in range(substeps)` loop of `TrIntegrator.simulate`. -/
noncomputable def simulateLoop (springs : List (Spring n)) (g : Vec3)
    (w : Fin n → ℝ) (simDt : ℝ) : ℕ → State n → State n
  | 0, st => st
  | Nat.succ k, st => simulateLoop springs g w simDt k (simStep springs g w simDt st)

/-- `TrIntegrator.simulate(dt, substeps)`: `sim_dt = dt/substeps`, then
`substeps` iterations of `eval_springs` followed by
`integrate_particles`; the caller reads `.pos` of the result, as the
method returns the positions. -/
noncomputable def simulate (springs : List (Spring n)) (g : Vec3)
    (w : Fin n → ℝ) (dt : ℝ) (substeps : ℕ) (st : State n) : State n :=
  simulateLoop springs g w (dt / (substeps : ℝ)) substeps st

/-- The gravity tensor constructed by `TrIntegrator.__init__`. -/
noncomputable def trGravity : Vec3 := ⟨0, 0 - 9.8, 0⟩

/-- `deform_mesh_kernel(points, time, out_points)` from
`OgnMeshDeform.py`, as the function `tid ↦ out_points[tid]`:
`pos = points[tid]`;
`displacement = wp.vec3(0.0, wp.sin(time + pos[0] * 0.1) * 10.0, 0.0)`;
`out_points[tid] = pos + displacement`. The input `points` array is only
read, never written. -/
noncomputable def deform_mesh_kernel {m : ℕ} (points : Fin m → Vec3)
    (time : ℝ) (tid : Fin m) : Vec3 :=
  let pos := points tid
  let displacement : Vec3 := ⟨0, Real.sin (time + pos.x * 0.1) * 10, 0⟩
  pos.add displacement

/-- Componentwise sum of a force buffer: the total force on the system. -/
noncomputable def totalForce (f : Fin n → Vec3) : Vec3 :=
  ⟨∑ k, (f k).x, ∑ k, (f k).y, ∑ k, (f k).z⟩

/-! ### Helper lemmas -/

lemma Vec3.ext_comp {a b : Vec3} (hx : a.x = b.x) (hy : a.y = b.y)
    (hz : a.z = b.z) : a = b := by
  cases a; cases b; simp_all

lemma Vec3.zero_smul (v : Vec3) : Vec3.smul 0 v = Vec3.zero := by
  simp [Vec3.smul, Vec3.zero]

lemma Vec3.add_zero' (a : Vec3) : a.add Vec3.zero = a := by
  simp [Vec3.add, Vec3.zero]

lemma Vec3.sub_zero' (a : Vec3) : a.sub Vec3.zero = a := by
  simp [Vec3.sub, Vec3.zero]

lemma Vec3.norm_smul (c : ℝ) (v : Vec3) :
    (Vec3.smul c v).norm = |c| * v.norm := by
  unfold Vec3.norm Vec3.smul Vec3.dot
  simp only
  rw [show c * v.x * (c * v.x) + c * v.y * (c * v.y) + c * v.z * (c * v.z)
        = c ^ 2 * (v.x * v.x + v.y * v.y + v.z * v.z) by ring,
    Real.sqrt_mul (sq_nonneg c), Real.sqrt_sq_eq_abs]

lemma simulateLoop_eq_iterate (springs : List (Spring n)) (g : Vec3)
    (w : Fin n → ℝ) (d : ℝ) (m : ℕ) (st : State n) :
    simulateLoop springs g w d m st = (simStep springs g w d)^[m] st := by
  induction m generalizing st with
  | zero => rfl
  | succ k ih => rw [simulateLoop, ih, Function.iterate_succ_apply]

/-! ### Claims -/

/-- C2: immediately after each `integrate_particles` call (hence after
every `simulate` sub-step), the force buffer entry of every particle is
the zero vector, whatever forces were accumulated before: the final
`f *= 0.0` zeroes every entry. -/
theorem integrate_clears_forces (x v f : Fin n → Vec3) (g : Vec3)
    (w : Fin n → ℝ) (dt : ℝ) (springs : List (Spring n)) (st : State n)
    (k : Fin n) :
    (integrate_particles x v f g w dt).force k = Vec3.zero ∧
    (simStep springs g w dt st).force k = Vec3.zero := by
  constructor <;> simp [integrate_particles, simStep, Vec3.smul, Vec3.zero]

/-- C8: for a pinned particle (`w k = 0`), `integrate_particles` leaves
the velocity unchanged (the force term is scaled by `w = 0` and the
gravity mask is off), but still advances the position by
`velocity * dt` like every other particle; in particular a pinned
particle with nonzero stored velocity changes position whenever
`dt ≠ 0`. -/
theorem pinned_velocity_fixed_position_advances (x v f : Fin n → Vec3)
    (g : Vec3) (w : Fin n → ℝ) (dt : ℝ) (k : Fin n) (hw : w k = 0) :
    (integrate_particles x v f g w dt).vel k = v k ∧
    (integrate_particles x v f g w dt).pos k
      = (x k).add (Vec3.smul dt (v k)) ∧
    (dt ≠ 0 → v k ≠ Vec3.zero →
      (integrate_particles x v f g w dt).pos k ≠ x k) := by
  have hvel : (integrate_particles x v f g w dt).vel k = v k := by
    simp [integrate_particles, hw]
    exact Vec3.ext_comp (by simp [Vec3.add, Vec3.smul]) (by simp [Vec3.add, Vec3.smul])
      (by simp [Vec3.add, Vec3.smul])
  have hpos : (integrate_particles x v f g w dt).pos k
      = (x k).add (Vec3.smul dt (v k)) := by
    show ((x k).add (Vec3.smul dt ((integrate_particles x v f g w dt).vel k)))
      = (x k).add (Vec3.smul dt (v k))
    rw [hvel]
  refine ⟨hvel, hpos, ?_⟩
  intro hdt hv heq
  rw [hpos] at heq
  apply hv
  have hx := congrArg Vec3.x heq
  have hy := congrArg Vec3.y heq
  have hz := congrArg Vec3.z heq
  simp [Vec3.add, Vec3.smul] at hx hy hz
  refine Vec3.ext_comp ?_ ?_ ?_ <;> simp [Vec3.zero]
  · rcases hx with h | h
    · exact absurd h hdt
    · exact h
  · rcases hy with h | h
    · exact absurd h hdt
    · exact h
  · rcases hz with h | h
    · exact absurd h hdt
    · exact h

/-- Witness for C8 at a concrete input: one pinned particle at the
origin with stored velocity `(1,0,0)`, accumulated force `(5,6,7)`,
gravity `(0,-9.8,0)`, `dt = 1`. -/
theorem pinned_velocity_fixed_position_advances_witness :
    (integrate_particles (fun _ : Fin 1 => Vec3.zero) (fun _ => ⟨1, 0, 0⟩)
        (fun _ => ⟨5, 6, 7⟩) trGravity (fun _ => 0) 1).vel 0 = ⟨1, 0, 0⟩ ∧
    (integrate_particles (fun _ : Fin 1 => Vec3.zero) (fun _ => ⟨1, 0, 0⟩)
        (fun _ => ⟨5, 6, 7⟩) trGravity (fun _ => 0) 1).pos 0
      = Vec3.zero.add (Vec3.smul 1 ⟨1, 0, 0⟩) ∧
    ((1 : ℝ) ≠ 0 → (⟨1, 0, 0⟩ : Vec3) ≠ Vec3.zero →
      (integrate_particles (fun _ : Fin 1 => Vec3.zero) (fun _ => ⟨1, 0, 0⟩)
          (fun _ => ⟨5, 6, 7⟩) trGravity (fun _ => 0) 1).pos 0 ≠ Vec3.zero) := by
  exact pinned_velocity_fixed_position_advances
    (fun _ => Vec3.zero) (fun _ => ⟨1, 0, 0⟩) (fun _ => ⟨5, 6, 7⟩)
    trGravity (fun _ => 0) 1 0 rfl

lemma simStep_pinned_zero_vel (springs : List (Spring n)) (g : Vec3)
    (w : Fin n → ℝ) (dt : ℝ) (st : State n) (k : Fin n) (hw : w k = 0)
    (hv : st.vel k = Vec3.zero) :
    (simStep springs g w dt st).pos k = st.pos k ∧
    (simStep springs g w dt st).vel k = Vec3.zero := by
  have hvel : (simStep springs g w dt st).vel k = Vec3.zero := by
    simp [simStep, integrate_particles, hw, hv]
    exact Vec3.ext_comp (by simp [Vec3.add, Vec3.smul, Vec3.zero])
      (by simp [Vec3.add, Vec3.smul, Vec3.zero])
      (by simp [Vec3.add, Vec3.smul, Vec3.zero])
  refine ⟨?_, hvel⟩
  show (st.pos k).add (Vec3.smul dt ((simStep springs g w dt st).vel k)) = st.pos k
  rw [hvel]
  exact Vec3.ext_comp (by simp [Vec3.add, Vec3.smul, Vec3.zero])
    (by simp [Vec3.add, Vec3.smul, Vec3.zero])
    (by simp [Vec3.add, Vec3.smul, Vec3.zero])

lemma simulateLoop_pinned_zero_vel (springs : List (Spring n)) (g : Vec3)
    (w : Fin n → ℝ) (d : ℝ) (m : ℕ) (st : State n) (k : Fin n)
    (hw : w k = 0) (hv : st.vel k = Vec3.zero) :
    (simulateLoop springs g w d m st).pos k = st.pos k ∧
    (simulateLoop springs g w d m st).vel k = Vec3.zero := by
  induction m generalizing st with
  | zero => exact ⟨rfl, hv⟩
  | succ j ih =>
    obtain ⟨hp, hvz⟩ := simStep_pinned_zero_vel springs g w d st k hw hv
    obtain ⟨hp2, hv2⟩ := ih (simStep springs g w d st) hvz
    rw [simulateLoop]
    exact ⟨hp2.trans hp, hv2⟩

/-- C1 (amended): a pinned particle (`w k = 0`) never has its velocity
changed by `integrate_particles`, and — provided its stored velocity is
zero — its position is also unchanged, across one `integrate_particles`
call and across any number of `simulate` sub-steps, regardless of the
accumulated forces, the gravity vector, or the timestep. (Without the
zero-velocity proviso the position does change: see the
counterexample.) -/
theorem pinned_particle_fixed (springs : List (Spring n)) (g : Vec3)
    (w : Fin n → ℝ) (dt : ℝ) (m : ℕ) (st : State n) (k : Fin n)
    (hw : w k = 0) (hv : st.vel k = Vec3.zero) :
    (integrate_particles st.pos st.vel st.force g w dt).vel k = st.vel k ∧
    (integrate_particles st.pos st.vel st.force g w dt).pos k = st.pos k ∧
    (simulate springs g w dt m st).pos k = st.pos k ∧
    (simulate springs g w dt m st).vel k = st.vel k := by
  have h1 := simStep_pinned_zero_vel [] g w dt st k hw hv
  have h2 := simulateLoop_pinned_zero_vel springs g w (dt / (m : ℝ)) m st k hw hv
  refine ⟨?_, ?_, h2.1, h2.2.trans hv.symm⟩
  · have := h1.2
    simp only [simStep, eval_springs, List.foldl_nil] at this
    exact this.trans hv.symm
  · have := h1.1
    simp only [simStep, eval_springs, List.foldl_nil] at this
    exact this

/-- Witness for C1 (amended): one pinned particle at `(3,4,5)` with zero
velocity and accumulated force `(5,6,7)` under gravity, `dt = 1`, two
sub-steps. -/
theorem pinned_particle_fixed_witness :
    (integrate_particles (fun _ : Fin 1 => ⟨3, 4, 5⟩) (fun _ => Vec3.zero)
        (fun _ => ⟨5, 6, 7⟩) trGravity (fun _ => 0) 1).vel 0 = Vec3.zero ∧
    (integrate_particles (fun _ : Fin 1 => ⟨3, 4, 5⟩) (fun _ => Vec3.zero)
        (fun _ => ⟨5, 6, 7⟩) trGravity (fun _ => 0) 1).pos 0 = ⟨3, 4, 5⟩ ∧
    (simulate ([] : List (Spring 1)) trGravity (fun _ => 0) 1 2
        ⟨fun _ => ⟨3, 4, 5⟩, fun _ => Vec3.zero, fun _ => ⟨5, 6, 7⟩⟩).pos 0
      = ⟨3, 4, 5⟩ ∧
    (simulate ([] : List (Spring 1)) trGravity (fun _ => 0) 1 2
        ⟨fun _ => ⟨3, 4, 5⟩, fun _ => Vec3.zero, fun _ => ⟨5, 6, 7⟩⟩).vel 0
      = Vec3.zero := by
  exact pinned_particle_fixed [] trGravity (fun _ => 0) 1 2
    ⟨fun _ => ⟨3, 4, 5⟩, fun _ => Vec3.zero, fun _ => ⟨5, 6, 7⟩⟩ 0 rfl rfl

/-- Counterexample to C1 as stated: a pinned particle whose stored
velocity is `(1,0,0)` moves from the origin to `(1,0,0)` in one
`integrate_particles` call with `dt = 1` — its position is not left
unchanged. -/
theorem pinned_particle_moves_counterexample :
    (integrate_particles (fun _ : Fin 1 => Vec3.zero) (fun _ => ⟨1, 0, 0⟩)
        (fun _ => Vec3.zero) trGravity (fun _ => 0) 1).pos 0 ≠ Vec3.zero := by
  intro h
  have hx := congrArg Vec3.x h
  simp [integrate_particles, Vec3.add, Vec3.smul, Vec3.zero] at hx

/-- C5: `simulate(dt, substeps)` performs exactly `substeps` iterations
of one `eval_springs` pass followed by one `integrate_particles` pass
(that is `simStep`), each with per-iteration timestep `dt/substeps`,
with no early termination; the positions it returns are the `.pos`
field of the state after the final iteration. -/
theorem simulate_is_substep_iteration (springs : List (Spring n)) (g : Vec3)
    (w : Fin n → ℝ) (dt : ℝ) (m : ℕ) (st : State n) :
    simulate springs g w dt m st
      = (simStep springs g w (dt / (m : ℝ)))^[m] st ∧
    (simulate springs g w dt m st).pos
      = ((simStep springs g w (dt / (m : ℝ)))^[m] st).pos := by
  have h := simulateLoop_eq_iterate springs g w (dt / (m : ℝ)) m st
  exact ⟨h, congrArg State.pos h⟩

/-- C10: `deform_mesh_kernel` writes
`out_points[tid] = points[tid] + (0, sin(time + points[tid].x * 0.1) * 10, 0)`;
in particular the `x` and `z` components of every output point equal
those of the input point. The kernel only reads `points` (the embedding
is the function `tid ↦ out_points[tid]`; the input array is not
written). -/
theorem deform_mesh_kernel_spec {m : ℕ} (points : Fin m → Vec3)
    (time : ℝ) (tid : Fin m) :
    deform_mesh_kernel points time tid
      = (points tid).add ⟨0, Real.sin (time + (points tid).x * 0.1) * 10, 0⟩ ∧
    (deform_mesh_kernel points time tid).x = (points tid).x ∧
    (deform_mesh_kernel points time tid).z = (points tid).z := by
  refine ⟨rfl, ?_, ?_⟩ <;> simp [deform_mesh_kernel, Vec3.add]

/-- C3 (amended): running `simulate(dt, substeps=1)` twice equals a
single `simulate(2*dt, substeps=2)` call — both perform two
`eval_springs`-then-`integrate_particles` sub-steps of size `dt`. (A
single `simulate(dt, substeps=2)` call instead performs two sub-steps
of size `dt/2` and in general produces a different state: see the
counterexample.) -/
theorem simulate_twice_substep_law (springs : List (Spring n)) (g : Vec3)
    (w : Fin n → ℝ) (dt : ℝ) (st : State n) :
    simulate springs g w dt 1 (simulate springs g w dt 1 st)
      = simulate springs g w (2 * dt) 2 st := by
  have hd : (2 * dt) / ((2 : ℕ) : ℝ) = dt := by push_cast; ring
  have h1 : (dt : ℝ) / ((1 : ℕ) : ℝ) = dt := by push_cast; ring
  simp only [simulate, simulateLoop_eq_iterate, hd, h1]
  rw [show (2 : ℕ) = 1 + 1 from rfl, Function.iterate_add_apply]

/-- Counterexample to C3 as stated: for one free particle starting at
rest under gravity with no springs and `dt = 1`, two
`simulate(dt, substeps=1)` calls put the particle at height `-29.4`,
while one `simulate(dt, substeps=2)` call (per-substep `dt/2`) puts it
at height `-7.35` — the final positions differ. -/
theorem simulate_halfstep_counterexample :
    ((simulate ([] : List (Spring 1)) trGravity (fun _ => 1) 1 1
        (simulate ([] : List (Spring 1)) trGravity (fun _ => 1) 1 1
          ⟨fun _ => Vec3.zero, fun _ => Vec3.zero, fun _ => Vec3.zero⟩)).pos 0).y
      ≠ ((simulate ([] : List (Spring 1)) trGravity (fun _ => 1) 1 2
          ⟨fun _ => Vec3.zero, fun _ => Vec3.zero, fun _ => Vec3.zero⟩).pos 0).y := by
  simp only [simulate, simulateLoop_eq_iterate]
  rw [show (2 : ℕ) = 1 + 1 from rfl, Function.iterate_add_apply]
  simp only [Function.iterate_one, simStep, eval_springs, List.foldl_nil,
    integrate_particles, trGravity, Vec3.add, Vec3.smul, Vec3.zero]
  norm_num

/-- C4: `eval_springs` does not guard the normalization by the spring
length: on an input whose spring has coincident endpoints the current
length `l` is `0`, and the direction is still computed as
`(1/l) * xij`, i.e. the `1.0 / l` division is reached with `l = 0`
(there is no conditional anywhere in `springDir`, `applySpring` or
`eval_springs`). -/
theorem zero_length_spring_division_reached :
    springL (fun _ : Fin 2 => Vec3.zero) ⟨0, 1, 1, 100, 0⟩ = 0 ∧
    springDir (fun _ : Fin 2 => Vec3.zero) ⟨0, 1, 1, 100, 0⟩
      = Vec3.smul (1 / (0 : ℝ)) (Vec3.zero.sub Vec3.zero) := by
  have hL : springL (fun _ : Fin 2 => Vec3.zero) ⟨0, 1, 1, 100, 0⟩ = 0 := by
    simp [springL, Vec3.norm, Vec3.dot, Vec3.sub, Vec3.zero]
  refine ⟨hL, ?_⟩
  rw [springDir, hL]

lemma sum_update_add (g : Fin n → ℝ) (i : Fin n) (r : ℝ) :
    ∑ k, Function.update g i (g i + r) k = (∑ k, g k) + r := by
  classical
  rw [Finset.sum_update_of_mem (Finset.mem_univ i), ← Finset.erase_eq,
    ← Finset.add_sum_erase Finset.univ g (Finset.mem_univ i)]
  ring

lemma sum_update_update (g : Fin n → ℝ) (i j : Fin n) (r : ℝ) :
    ∑ k, Function.update (Function.update g i (g i - r)) j
        (Function.update g i (g i - r) j + r) k = ∑ k, g k := by
  rw [sum_update_add (Function.update g i (g i - r)) j r]
  have h2 : ∑ k, Function.update g i (g i - r) k = (∑ k, g k) + (-r) := by
    rw [← sum_update_add g i (-r)]
    simp [sub_eq_add_neg]
  rw [h2]
  ring

lemma sum_proj_applySpring (proj : Vec3 → ℝ)
    (hadd : ∀ a b : Vec3, proj (a.add b) = proj a + proj b)
    (hsub : ∀ a b : Vec3, proj (a.sub b) = proj a - proj b)
    (x v f : Fin n → Vec3) (s : Spring n) :
    ∑ k, proj (applySpring x v f s k) = ∑ k, proj (f k) := by
  classical
  set a := Vec3.smul (springFs x v s) (springDir x s) with ha
  set g : Fin n → ℝ := fun t => proj (f t) with hg
  have key : ∀ k, proj (applySpring x v f s k)
      = Function.update (Function.update g s.i (g s.i - proj a)) s.j
          (Function.update g s.i (g s.i - proj a) s.j + proj a) k := by
    intro k
    show proj (Function.update (Function.update f s.i ((f s.i).sub a)) s.j
        ((Function.update f s.i ((f s.i).sub a) s.j).add a) k) = _
    rcases eq_or_ne k s.j with hj | hj
    · rw [hj, Function.update_same, Function.update_same, hadd]
      rcases eq_or_ne s.j s.i with hi | hi
      · rw [hi, Function.update_same, Function.update_same, hsub]
      · rw [Function.update_noteq hi, Function.update_noteq hi]
    · rw [Function.update_noteq hj, Function.update_noteq hj]
      rcases eq_or_ne k s.i with hi | hi
      · rw [hi, Function.update_same, Function.update_same, hsub]
      · rw [Function.update_noteq hi, Function.update_noteq hi]
  calc ∑ k, proj (applySpring x v f s k)
      = ∑ k, Function.update (Function.update g s.i (g s.i - proj a)) s.j
          (Function.update g s.i (g s.i - proj a) s.j + proj a) k :=
        Finset.sum_congr rfl fun k _ => key k
    _ = ∑ k, g k := sum_update_update g s.i s.j (proj a)

lemma totalForce_applySpring (x v f : Fin n → Vec3) (s : Spring n) :
    totalForce (applySpring x v f s) = totalForce f :=
  Vec3.ext_comp
    (sum_proj_applySpring Vec3.x (fun _ _ => rfl) (fun _ _ => rfl) x v f s)
    (sum_proj_applySpring Vec3.y (fun _ _ => rfl) (fun _ _ => rfl) x v f s)
    (sum_proj_applySpring Vec3.z (fun _ _ => rfl) (fun _ _ => rfl) x v f s)

lemma totalForce_eval_springs (x v : Fin n → Vec3)
    (springs : List (Spring n)) (f : Fin n → Vec3) :
    totalForce (eval_springs x v springs f) = totalForce f := by
  induction springs generalizing f with
  | nil => rfl
  | cons s rest ih =>
    simp only [eval_springs, List.foldl_cons]
    exact (ih (applySpring x v f s)).trans (totalForce_applySpring x v f s)

/-- C9: when every spring has nonzero current length, `eval_springs`
applied to a force buffer of zero vectors leaves the vector sum of all
per-particle forces equal to zero — each spring scatter-adds exactly
opposite contributions `-fs*dir` and `+fs*dir` to its two endpoints, so
the total linear momentum input from springs is zero. -/
theorem eval_springs_conserves_momentum (x v : Fin n → Vec3)
    (springs : List (Spring n)) (h : ∀ s ∈ springs, springL x s ≠ 0) :
    totalForce (eval_springs x v springs (fun _ => Vec3.zero)) = Vec3.zero := by
  rw [totalForce_eval_springs]
  simp [totalForce, Vec3.zero]

/-- Witness for C9: two particles at `(1,0,0)` and the origin joined by
one spring of current length `1 ≠ 0`. -/
theorem eval_springs_conserves_momentum_witness :
    (∀ s ∈ [(⟨0, 1, 1, 100, 0⟩ : Spring 2)],
      springL ![⟨1, 0, 0⟩, ⟨0, 0, 0⟩] s ≠ 0) ∧
    totalForce (eval_springs ![⟨1, 0, 0⟩, ⟨0, 0, 0⟩] (fun _ => Vec3.zero)
      [(⟨0, 1, 1, 100, 0⟩ : Spring 2)] (fun _ => Vec3.zero)) = Vec3.zero := by
  have hL : springL ![(⟨1, 0, 0⟩ : Vec3), ⟨0, 0, 0⟩] (⟨0, 1, 1, 100, 0⟩ : Spring 2) = 1 := by
    show (Vec3.sub ⟨1, 0, 0⟩ ⟨0, 0, 0⟩).norm = 1
    rw [show Vec3.sub ⟨1, 0, 0⟩ ⟨0, 0, 0⟩ = ⟨1, 0, 0⟩ from by
      simp [Vec3.sub]]
    show Real.sqrt (1 * 1 + 0 * 0 + 0 * 0) = 1
    norm_num
  have h : ∀ s ∈ [(⟨0, 1, 1, 100, 0⟩ : Spring 2)],
      springL ![⟨1, 0, 0⟩, ⟨0, 0, 0⟩] s ≠ 0 := by
    intro s hs
    rw [List.mem_singleton] at hs
    subst hs
    rw [hL]
    norm_num
  exact ⟨h, eval_springs_conserves_momentum _ _ _ h⟩

lemma springL_nonneg (x : Fin n → Vec3) (s : Spring n) : 0 ≤ springL x s :=
  Real.sqrt_nonneg _

lemma norm_springDir (x : Fin n → Vec3) (s : Spring n)
    (h : springL x s ≠ 0) : (springDir x s).norm = 1 := by
  unfold springDir
  rw [Vec3.norm_smul]
  have hL : ((x s.i).sub (x s.j)).norm = springL x s := rfl
  rw [hL, abs_of_nonneg (one_div_nonneg.mpr (springL_nonneg x s)), one_div,
    inv_mul_cancel₀ h]

/-- C6: for a system consisting of a single spring whose endpoints are
at distance `rest + Δ` (`Δ > 0`), with zero damping and both endpoint
particles at zero velocity, `eval_springs` starting from a zero force
buffer accumulates onto each endpoint a force of magnitude `ke * Δ`
directed along the spring so as to pull the two particles toward each
other (each force is a positive multiple of the vector toward the other
endpoint), and the two contributions are equal and opposite. -/
theorem single_spring_stretched_force (x v : Fin n → Vec3) (s : Spring n)
    (hij : s.i ≠ s.j) (hkd : s.kd = 0)
    (hvi : v s.i = Vec3.zero) (hvj : v s.j = Vec3.zero)
    (hke : 0 ≤ s.ke) (Δ : ℝ) (hΔ : 0 < Δ) (hrest : 0 ≤ s.rest)
    (hlen : springL x s = s.rest + Δ) :
    eval_springs x v [s] (fun _ => Vec3.zero) s.i
      = Vec3.smul (s.ke * Δ / (s.rest + Δ)) ((x s.j).sub (x s.i)) ∧
    eval_springs x v [s] (fun _ => Vec3.zero) s.j
      = Vec3.smul (s.ke * Δ / (s.rest + Δ)) ((x s.i).sub (x s.j)) ∧
    (eval_springs x v [s] (fun _ => Vec3.zero) s.i).add
        (eval_springs x v [s] (fun _ => Vec3.zero) s.j) = Vec3.zero ∧
    (eval_springs x v [s] (fun _ => Vec3.zero) s.i).norm = s.ke * Δ ∧
    (eval_springs x v [s] (fun _ => Vec3.zero) s.j).norm = s.ke * Δ := by
  have hlpos : 0 < springL x s := by rw [hlen]; linarith
  have hlne : springL x s ≠ 0 := ne_of_gt hlpos
  have hfs : springFs x v s = s.ke * Δ := by
    unfold springFs
    rw [hkd, hvi, hvj, hlen]
    simp [Vec3.dot, Vec3.sub, Vec3.zero]
  have hFi : eval_springs x v [s] (fun _ => Vec3.zero) s.i
      = Vec3.zero.sub (Vec3.smul (springFs x v s) (springDir x s)) := by
    show Function.update
        (Function.update (fun _ => Vec3.zero) s.i
          (((fun _ : Fin n => Vec3.zero) s.i).sub
            (Vec3.smul (springFs x v s) (springDir x s)))) s.j _ s.i = _
    rw [Function.update_noteq hij, Function.update_same]
  have hFj : eval_springs x v [s] (fun _ => Vec3.zero) s.j
      = Vec3.zero.add (Vec3.smul (springFs x v s) (springDir x s)) := by
    show Function.update
        (Function.update (fun _ => Vec3.zero) s.i
          (((fun _ : Fin n => Vec3.zero) s.i).sub
            (Vec3.smul (springFs x v s) (springDir x s)))) s.j
        ((Function.update (fun _ => Vec3.zero) s.i
          (((fun _ : Fin n => Vec3.zero) s.i).sub
            (Vec3.smul (springFs x v s) (springDir x s))) s.j).add
          (Vec3.smul (springFs x v s) (springDir x s))) s.j = _
    rw [Function.update_same, Function.update_noteq (Ne.symm hij)]
  have c1 : eval_springs x v [s] (fun _ => Vec3.zero) s.i
      = Vec3.smul (s.ke * Δ / (s.rest + Δ)) ((x s.j).sub (x s.i)) := by
    rw [hFi, hfs]
    simp only [springDir, hlen]
    exact Vec3.ext_comp (by simp [Vec3.sub, Vec3.smul, Vec3.zero]; ring)
      (by simp [Vec3.sub, Vec3.smul, Vec3.zero]; ring)
      (by simp [Vec3.sub, Vec3.smul, Vec3.zero]; ring)
  have c2 : eval_springs x v [s] (fun _ => Vec3.zero) s.j
      = Vec3.smul (s.ke * Δ / (s.rest + Δ)) ((x s.i).sub (x s.j)) := by
    rw [hFj, hfs]
    simp only [springDir, hlen]
    exact Vec3.ext_comp (by simp [Vec3.sub, Vec3.smul, Vec3.add, Vec3.zero]; ring)
      (by simp [Vec3.sub, Vec3.smul, Vec3.add, Vec3.zero]; ring)
      (by simp [Vec3.sub, Vec3.smul, Vec3.add, Vec3.zero]; ring)
  have c3 : (eval_springs x v [s] (fun _ => Vec3.zero) s.i).add
      (eval_springs x v [s] (fun _ => Vec3.zero) s.j) = Vec3.zero := by
    rw [c1, c2]
    exact Vec3.ext_comp (by simp [Vec3.sub, Vec3.smul, Vec3.add, Vec3.zero]; ring)
      (by simp [Vec3.sub, Vec3.smul, Vec3.add, Vec3.zero]; ring)
      (by simp [Vec3.sub, Vec3.smul, Vec3.add, Vec3.zero]; ring)
  have habs : |s.ke * Δ| = s.ke * Δ := abs_of_nonneg (mul_nonneg hke hΔ.le)
  have c4 : (eval_springs x v [s] (fun _ => Vec3.zero) s.i).norm = s.ke * Δ := by
    rw [hFi, hfs]
    have hneg : Vec3.zero.sub (Vec3.smul (s.ke * Δ) (springDir x s))
        = Vec3.smul (-(s.ke * Δ)) (springDir x s) :=
      Vec3.ext_comp (by simp [Vec3.sub, Vec3.smul, Vec3.zero])
        (by simp [Vec3.sub, Vec3.smul, Vec3.zero])
        (by simp [Vec3.sub, Vec3.smul, Vec3.zero])
    rw [hneg, Vec3.norm_smul, norm_springDir x s hlne, mul_one, abs_neg, habs]
  have c5 : (eval_springs x v [s] (fun _ => Vec3.zero) s.j).norm = s.ke * Δ := by
    rw [hFj, hfs]
    have hpos : Vec3.zero.add (Vec3.smul (s.ke * Δ) (springDir x s))
        = Vec3.smul (s.ke * Δ) (springDir x s) :=
      Vec3.ext_comp (by simp [Vec3.add, Vec3.smul, Vec3.zero])
        (by simp [Vec3.add, Vec3.smul, Vec3.zero])
        (by simp [Vec3.add, Vec3.smul, Vec3.zero])
    rw [hpos, Vec3.norm_smul, norm_springDir x s hlne, mul_one, habs]
  exact ⟨c1, c2, c3, c4, c5⟩

/-- Witness for C6: two particles at `(2,0,0)` and the origin, one
spring with `rest = 1`, stretched by `Δ = 1`, `ke = 100`, `kd = 0`. -/
theorem single_spring_stretched_force_witness :
    eval_springs ![⟨2, 0, 0⟩, ⟨0, 0, 0⟩] (fun _ => Vec3.zero)
        [(⟨0, 1, 1, 100, 0⟩ : Spring 2)] (fun _ => Vec3.zero) 0
      = Vec3.smul (100 * 1 / (1 + 1)) (Vec3.sub ⟨0, 0, 0⟩ ⟨2, 0, 0⟩) ∧
    eval_springs ![⟨2, 0, 0⟩, ⟨0, 0, 0⟩] (fun _ => Vec3.zero)
        [(⟨0, 1, 1, 100, 0⟩ : Spring 2)] (fun _ => Vec3.zero) 1
      = Vec3.smul (100 * 1 / (1 + 1)) (Vec3.sub ⟨2, 0, 0⟩ ⟨0, 0, 0⟩) ∧
    (eval_springs ![⟨2, 0, 0⟩, ⟨0, 0, 0⟩] (fun _ => Vec3.zero)
        [(⟨0, 1, 1, 100, 0⟩ : Spring 2)] (fun _ => Vec3.zero) 0).add
      (eval_springs ![⟨2, 0, 0⟩, ⟨0, 0, 0⟩] (fun _ => Vec3.zero)
        [(⟨0, 1, 1, 100, 0⟩ : Spring 2)] (fun _ => Vec3.zero) 1) = Vec3.zero ∧
    (eval_springs ![⟨2, 0, 0⟩, ⟨0, 0, 0⟩] (fun _ => Vec3.zero)
        [(⟨0, 1, 1, 100, 0⟩ : Spring 2)] (fun _ => Vec3.zero) 0).norm = 100 * 1 ∧
    (eval_springs ![⟨2, 0, 0⟩, ⟨0, 0, 0⟩] (fun _ => Vec3.zero)
        [(⟨0, 1, 1, 100, 0⟩ : Spring 2)] (fun _ => Vec3.zero) 1).norm = 100 * 1 := by
  have hlen : springL ![(⟨2, 0, 0⟩ : Vec3), ⟨0, 0, 0⟩] (⟨0, 1, 1, 100, 0⟩ : Spring 2)
      = 1 + 1 := by
    show (Vec3.sub ⟨2, 0, 0⟩ ⟨0, 0, 0⟩).norm = 1 + 1
    rw [show Vec3.sub ⟨2, 0, 0⟩ ⟨0, 0, 0⟩ = ⟨2, 0, 0⟩ from by simp [Vec3.sub]]
    show Real.sqrt (2 * 2 + 0 * 0 + 0 * 0) = 1 + 1
    rw [show (2 * 2 + 0 * 0 + 0 * 0 : ℝ) = 2 ^ 2 by norm_num,
      Real.sqrt_sq (by norm_num : (0 : ℝ) ≤ 2)]
    norm_num
  exact single_spring_stretched_force ![⟨2, 0, 0⟩, ⟨0, 0, 0⟩]
    (fun _ => Vec3.zero) (⟨0, 1, 1, 100, 0⟩ : Spring 2)
    (by decide) rfl rfl rfl (by norm_num) 1 (by norm_num) (by norm_num) hlen

lemma eval_single_i (x v f : Fin n → Vec3) (s : Spring n) (hij : s.i ≠ s.j) :
    eval_springs x v [s] f s.i
      = (f s.i).sub (Vec3.smul (springFs x v s) (springDir x s)) := by
  show Function.update
      (Function.update f s.i
        ((f s.i).sub (Vec3.smul (springFs x v s) (springDir x s)))) s.j
      ((Function.update f s.i
        ((f s.i).sub (Vec3.smul (springFs x v s) (springDir x s))) s.j).add
        (Vec3.smul (springFs x v s) (springDir x s))) s.i = _
  rw [Function.update_noteq hij, Function.update_same]

lemma eval_single_j (x v f : Fin n → Vec3) (s : Spring n) (hij : s.i ≠ s.j) :
    eval_springs x v [s] f s.j
      = (f s.j).add (Vec3.smul (springFs x v s) (springDir x s)) := by
  show Function.update
      (Function.update f s.i
        ((f s.i).sub (Vec3.smul (springFs x v s) (springDir x s)))) s.j
      ((Function.update f s.i
        ((f s.i).sub (Vec3.smul (springFs x v s) (springDir x s))) s.j).add
        (Vec3.smul (springFs x v s) (springDir x s))) s.j = _
  rw [Function.update_same, Function.update_noteq (Ne.symm hij)]

/-- C7: two particles at `(0,0,0)` and `(1,0,0)`, zero velocities, one
spring `(0,1)` with `rest_length = 1`, `ke = 100`, `kd = 0`, inverse
masses `[0, 1]`, gravity `(0,-9.8,0)`: the spring is at rest so
`eval_springs` contributes zero force to both particles, and after one
`eval_springs`-then-`integrate_particles` sub-step with `dt = 0.01`,
particle 1 is exactly at `(1, -0.00098, 0)` (`v_y = -9.8 * 0.01`,
`x_y = v_y * 0.01`) while particle 0 stays exactly at `(0,0,0)`. -/
theorem two_particle_concrete_substep :
    eval_springs ![⟨0, 0, 0⟩, ⟨1, 0, 0⟩] (fun _ => Vec3.zero)
      [(⟨0, 1, 1, 100, 0⟩ : Spring 2)] (fun _ => Vec3.zero) 0 = Vec3.zero ∧
    eval_springs ![⟨0, 0, 0⟩, ⟨1, 0, 0⟩] (fun _ => Vec3.zero)
      [(⟨0, 1, 1, 100, 0⟩ : Spring 2)] (fun _ => Vec3.zero) 1 = Vec3.zero ∧
    (simStep [(⟨0, 1, 1, 100, 0⟩ : Spring 2)] trGravity ![0, 1] 0.01
      ⟨![⟨0, 0, 0⟩, ⟨1, 0, 0⟩], fun _ => Vec3.zero, fun _ => Vec3.zero⟩).pos 0
      = ⟨0, 0, 0⟩ ∧
    (simStep [(⟨0, 1, 1, 100, 0⟩ : Spring 2)] trGravity ![0, 1] 0.01
      ⟨![⟨0, 0, 0⟩, ⟨1, 0, 0⟩], fun _ => Vec3.zero, fun _ => Vec3.zero⟩).pos 1
      = ⟨1, -0.00098, 0⟩ := by
  have hL : springL ![(⟨0, 0, 0⟩ : Vec3), ⟨1, 0, 0⟩] (⟨0, 1, 1, 100, 0⟩ : Spring 2)
      = 1 := by
    show (Vec3.sub ⟨0, 0, 0⟩ ⟨1, 0, 0⟩).norm = 1
    rw [show Vec3.sub ⟨0, 0, 0⟩ ⟨1, 0, 0⟩ = ⟨-1, 0, 0⟩ from by
      simp [Vec3.sub]]
    show Real.sqrt (-1 * -1 + 0 * 0 + 0 * 0) = 1
    rw [show (-1 * -1 + 0 * 0 + 0 * 0 : ℝ) = 1 by norm_num, Real.sqrt_one]
  have hfs : springFs ![(⟨0, 0, 0⟩ : Vec3), ⟨1, 0, 0⟩] (fun _ => Vec3.zero)
      (⟨0, 1, 1, 100, 0⟩ : Spring 2) = 0 := by
    unfold springFs
    rw [hL]
    show (100 : ℝ) * (1 - 1) + 0 * _ = 0
    ring
  have hF0 : eval_springs ![⟨0, 0, 0⟩, ⟨1, 0, 0⟩] (fun _ => Vec3.zero)
      [(⟨0, 1, 1, 100, 0⟩ : Spring 2)] (fun _ => Vec3.zero) 0 = Vec3.zero := by
    have h := eval_single_i ![⟨0, 0, 0⟩, ⟨1, 0, 0⟩] (fun _ => Vec3.zero)
      (fun _ => Vec3.zero) (⟨0, 1, 1, 100, 0⟩ : Spring 2) (by decide)
    rw [hfs, Vec3.zero_smul, Vec3.sub_zero'] at h
    exact h
  have hF1 : eval_springs ![⟨0, 0, 0⟩, ⟨1, 0, 0⟩] (fun _ => Vec3.zero)
      [(⟨0, 1, 1, 100, 0⟩ : Spring 2)] (fun _ => Vec3.zero) 1 = Vec3.zero := by
    have h := eval_single_j ![⟨0, 0, 0⟩, ⟨1, 0, 0⟩] (fun _ => Vec3.zero)
      (fun _ => Vec3.zero) (⟨0, 1, 1, 100, 0⟩ : Spring 2) (by decide)
    rw [hfs, Vec3.zero_smul, Vec3.add_zero'] at h
    exact h
  refine ⟨hF0, hF1, ?_, ?_⟩
  · simp only [simStep, integrate_particles, Matrix.cons_val_zero,
      Matrix.cons_val_one, Matrix.head_cons, hF0, trGravity]
    norm_num [Vec3.add, Vec3.smul, Vec3.zero, Vec3.mk.injEq]
  · simp only [simStep, integrate_particles, Matrix.cons_val_zero,
      Matrix.cons_val_one, Matrix.head_cons, hF1, trGravity]
    norm_num [Vec3.add, Vec3.smul, Vec3.zero, Vec3.mk.injEq]

end ClothSim
